import Mathlib

/- Verification of the core-memories retrieval engine of synthium-systems:
   a shallow embedding of packages/core-memories/src/vector-store.ts,
   packages/core-memories/src/chain-linkage.ts and the hybrid retrieval
   module (HybridRetrieval).  JavaScript numbers are modelled as real
   numbers; the JSONL file persistence is modelled as the in-memory data it
   encodes (a list of vector entries, and an association list mirroring the
   JS Map built by loadIndex, whose keys are unique and ordered by first
   insertion).  File-system failure handling (missing or malformed files)
   is out of scope of the claims treated here. -/

namespace Synthium

/-! ## Vector store (vector-store.ts) -/

/-- One stored embedding record (interface VectorEntry). -/
structure VectorEntry where
  id : String
  vector : List ℝ
  weekNumber : ℕ
  timestamp : String
  sourceId : String

/-- One search hit (interface VectorSearchResult). -/
structure VectorSearchResult where
  id : String
  score : ℝ
  sourceId : String
  weekNumber : ℕ

/-- VectorStore.cosineSimilarity: length-mismatched inputs score 0; the
accumulating loop computes the dot product and both squared norms; a zero
denominator yields exactly 0. -/
noncomputable def cosineSimilarity (a b : List ℝ) : ℝ :=
  if a.length ≠ b.length then 0
  else
    let dot := (List.zipWith (· * ·) a b).sum
    let normA := (a.map fun x => x * x).sum
    let normB := (b.map fun x => x * x).sum
    let denom := Real.sqrt normA * Real.sqrt normB
    if denom = 0 then 0 else dot / denom

/-- VectorStore.normalizeVector: L2-normalize, returning a zero-norm vector
unchanged. -/
noncomputable def normalizeVector (vector : List ℝ) : List ℝ :=
  let norm := Real.sqrt ((vector.map fun v => v * v).sum)
  if norm = 0 then vector else vector.map fun v => v / norm

/-- VectorStore.loadVectors: the per-week JSONL files are modelled as the
in-memory list of entries they hold; when specific week numbers are given,
entries are collected per requested week in that order, otherwise all
entries are taken in store order.  Entries whose vector length differs from
the configured dimension are excluded. -/
def loadVectors (dimensions : ℕ) (store : List VectorEntry)
    (weekNumbers : Option (List ℕ)) : List VectorEntry :=
  match weekNumbers with
  | some weeks =>
    if weeks.length > 0 then
      weeks.foldl (fun acc week =>
        acc ++ store.filter fun e =>
          e.weekNumber == week && e.vector.length == dimensions) []
    else store.filter fun e => e.vector.length == dimensions
  | none => store.filter fun e => e.vector.length == dimensions

/-- Descending-score order used to model the comparator
(a, b) => b.score - a.score of VectorStore.search.  JS Array.prototype.sort
is stable, so the sorted output is the unique stable descending sort, which
List.insertionSort with this relation computes. -/
def scoreDescOrder (a b : VectorSearchResult) : Prop := b.score ≤ a.score

noncomputable instance : DecidableRel scoreDescOrder :=
  fun a b => inferInstanceAs (Decidable (b.score ≤ a.score))

instance : IsTotal VectorSearchResult scoreDescOrder :=
  ⟨fun a b => le_total b.score a.score⟩

instance : IsTrans VectorSearchResult scoreDescOrder :=
  ⟨fun _ _ _ h1 h2 => le_trans h2 h1⟩

/-- VectorStore.search: normalize the query once, score every loaded entry,
keep only strictly positive scores, sort descending and truncate to k. -/
noncomputable def search (dimensions : ℕ) (store : List VectorEntry)
    (queryVector : List ℝ) (k : ℕ) (weekNumbers : Option (List ℕ)) :
    List VectorSearchResult :=
  let vectors := loadVectors dimensions store weekNumbers
  let normalizedQuery := normalizeVector queryVector
  let results := (vectors.map fun entry =>
    ({ id := entry.id,
       score := cosineSimilarity normalizedQuery (normalizeVector entry.vector),
       sourceId := entry.sourceId,
       weekNumber := entry.weekNumber } : VectorSearchResult)).filter
    fun r => decide (0 < r.score)
  (List.insertionSort scoreDescOrder results).take k

/-! ## Chain linkage store (chain-linkage.ts) -/

/-- The six link types (type ChainLinkType). -/
inductive ChainLinkType where
  | related
  | parent
  | child
  | sequential
  | causal
  | reference
  deriving DecidableEq

/-- One directed typed weighted edge (interface MemoryChainLink). -/
structure MemoryChainLink where
  fromId : String
  toId : String
  linkType : ChainLinkType
  strength : ℝ
  createdAt : ℝ
  metadata : Option (List (String × String))

/-- One traversal emission (interface ChainTraversalResult). -/
structure ChainTraversalResult where
  id : String
  path : String
  linkType : ChainLinkType
  linkStrength : ℝ
  hopDistance : ℕ
  discoveredAt : ℝ

/-- The chain index: node id mapped to its outgoing links.  Modelled as an
association list mirroring the JS Map built by loadIndex (unique keys,
first-insertion order). -/
abbrev ChainIndex := List (String × List MemoryChainLink)

/-- Map.get of the JS Map. -/
def mapGet {α : Type} : List (String × α) → String → Option α
  | [], _ => none
  | kv :: rest, k => if kv.1 == k then some kv.2 else mapGet rest k

/-- Map.set of the JS Map: replace the value of an existing key in place,
otherwise append the new key at the end. -/
def mapSet {α : Type} : List (String × α) → String → α → List (String × α)
  | [], k, v => [(k, v)]
  | kv :: rest, k, v =>
    if kv.1 == k then (k, v) :: rest else kv :: mapSet rest k v

/-- ChainLinkageStore.getLinks: outgoing edges of a node, empty if none. -/
def getLinks (index : ChainIndex) (entryId : String) : List MemoryChainLink :=
  (mapGet index entryId).getD []

/-- ChainLinkageStore.getReverseType: parent and child swap, every other
type is its own reverse. -/
def getReverseType : ChainLinkType → ChainLinkType
  | ChainLinkType.parent => ChainLinkType.child
  | ChainLinkType.child => ChainLinkType.parent
  | t => t

/-- ChainLinkageStore.addLink: insert the forward edge only when no edge
from fromId to toId exists yet, then insert the mirrored reverse edge only
when no edge from toId to fromId exists in the (already updated) index. -/
def addLink (index : ChainIndex) (fromId toId : String)
    (linkType : ChainLinkType) (strength : ℝ) (now : ℝ)
    (metadata : Option (List (String × String))) : ChainIndex :=
  let forwardLink : MemoryChainLink :=
    { fromId := fromId, toId := toId, linkType := linkType,
      strength := strength, createdAt := now, metadata := metadata }
  let existing := (mapGet index fromId).getD []
  let index1 :=
    if (existing.find? fun l => l.toId == toId).isSome then index
    else mapSet index fromId (existing ++ [forwardLink])
  let reverseLink : MemoryChainLink :=
    { fromId := toId, toId := fromId, linkType := getReverseType linkType,
      strength := strength, createdAt := now, metadata := metadata }
  let reverseExisting := (mapGet index1 toId).getD []
  if (reverseExisting.find? fun l => l.toId == fromId).isSome then index1
  else mapSet index1 toId (reverseExisting ++ [reverseLink])

/-- ChainLinkageStore.removeLink: drop every forward edge from fromId to
toId and rewrite the index only when something was dropped.  The mirrored
reverse edge is not touched. -/
def removeLink (index : ChainIndex) (fromId toId : String) : ChainIndex :=
  let links := (mapGet index fromId).getD []
  let filtered := links.filter fun l => l.toId != toId
  if filtered.length < links.length then mapSet index fromId filtered
  else index

/-- Frontier entry of the BFS queue of traverseChain. -/
structure QueueEntry where
  id : String
  hops : ℕ
  path : String

/-- Total number of links stored in the index, used as a fuel bound for the
BFS loop: each expanded node enqueues at most its out-degree, every node is
expanded at most once, so the loop dequeues at most 1 + totalLinkCount
entries. -/
def totalLinkCount (index : ChainIndex) : ℕ :=
  (index.map fun kv => kv.2.length).sum

/-- The while-loop of ChainLinkageStore.traverseChain.  On dequeue: skip if
already visited, else mark visited; stop expanding at the hop bound;
otherwise emit and enqueue every outgoing link of sufficient strength whose
target is not yet visited.  Returns the emitted results together with the
list of node ids processed (marked visited) in dequeue order. -/
noncomputable def traverseChainAux (index : ChainIndex) (maxHops : ℕ)
    (minStrength : ℝ) :
    ℕ → List QueueEntry → List String →
      List ChainTraversalResult × List String
  | 0, _, _ => ([], [])
  | _ + 1, [], _ => ([], [])
  | fuel + 1, current :: rest, visited =>
    if current.id ∈ visited then
      traverseChainAux index maxHops minStrength fuel rest visited
    else
      let visited' := current.id :: visited
      if maxHops ≤ current.hops then
        let r := traverseChainAux index maxHops minStrength fuel rest visited'
        (r.1, current.id :: r.2)
      else
        let links := getLinks index current.id
        let kept := links.filter fun l =>
          !decide (l.strength < minStrength) && !decide (l.toId ∈ visited')
        let emitted := kept.map fun l =>
          ({ id := l.toId, path := current.path ++ " -> " ++ l.toId,
             linkType := l.linkType, linkStrength := l.strength,
             hopDistance := current.hops + 1,
             discoveredAt := l.createdAt } : ChainTraversalResult)
        let enqueued := kept.map fun l =>
          ({ id := l.toId, hops := current.hops + 1,
             path := current.path ++ " -> " ++ l.toId } : QueueEntry)
        let r := traverseChainAux index maxHops minStrength fuel
          (rest ++ enqueued) visited'
        (emitted ++ r.1, current.id :: r.2)

/-- ChainLinkageStore.traverseChain, instrumented: the emitted results and
the dequeue-processing trace. -/
noncomputable def traverseChainTrace (index : ChainIndex) (startId : String)
    (maxHops : ℕ) (minStrength : ℝ) :
    List ChainTraversalResult × List String :=
  traverseChainAux index maxHops minStrength (totalLinkCount index + 1)
    [{ id := startId, hops := 0, path := startId }] []

/-- ChainLinkageStore.traverseChain: the emitted results. -/
noncomputable def traverseChain (index : ChainIndex) (startId : String)
    (maxHops : ℕ) (minStrength : ℝ) : List ChainTraversalResult :=
  (traverseChainTrace index startId maxHops minStrength).1

/-! ## Hybrid retrieval (HybridRetrieval) -/

/-- Configuration record (interface HybridRetrievalConfig). -/
structure HybridRetrievalConfig where
  enabled : Bool
  vectorWeight : ℝ
  chainWeight : ℝ
  recencyBoost : Bool
  recencyHalfLifeHours : ℝ
  maxHops : ℕ
  minLinkStrength : ℝ
  maxChainCandidates : ℕ
  vectorCandidateMultiplier : ℕ

/-- DEFAULT_HYBRID_CONFIG of the source. -/
noncomputable def DEFAULT_HYBRID_CONFIG : HybridRetrievalConfig :=
  { enabled := true, vectorWeight := 0.7, chainWeight := 0.3,
    recencyBoost := true, recencyHalfLifeHours := 24, maxHops := 2,
    minLinkStrength := 0.3, maxChainCandidates := 50,
    vectorCandidateMultiplier := 3 }

/-- One scored retrieval candidate (interface HybridRetrievalResult). -/
structure HybridRetrievalResult where
  id : String
  sourceId : String
  vectorScore : ℝ
  chainScore : ℝ
  linkStrength : ℝ
  recencyScore : ℝ
  hybridScore : ℝ
  linkType : Option ChainLinkType
  hopDistance : Option ℕ

/-- HybridRetrieval.calculateRecencyScore: non-positive half-life disables
decay; otherwise exponential half-life decay of the age in hours, clamped
to the unit interval.  Math.exp and Math.LN2 are modelled by the real
exponential and logarithm. -/
noncomputable def calculateRecencyScore (timestamp referenceTime
    halfLifeHours : ℝ) : ℝ :=
  if halfLifeHours ≤ 0 then 1
  else
    let ageHours := (referenceTime - timestamp) / (1000 * 60 * 60)
    let decay := Real.exp (-Real.log 2 * ageHours / halfLifeHours)
    max 0 (min 1 decay)

/-- HybridRetrieval.calculateChainScore: link strength decayed by half per
hop beyond the first. -/
noncomputable def calculateChainScore (linkStrength : ℝ)
    (hopDistance : ℕ) : ℝ :=
  if hopDistance ≤ 0 then linkStrength
  else
    let hopDecay := (0.5 : ℝ) ^ (hopDistance - 1)
    linkStrength * hopDecay

/-- Parameter object of HybridRetrieval.calculateHybridScore. -/
structure HybridScoreParams where
  vectorScore : ℝ
  linkStrength : ℝ
  recencyScore : ℝ
  vectorWeight : ℝ
  chainWeight : ℝ

/-- HybridRetrieval.calculateHybridScore: the base vector score times a
chain boost (only applied for positive link strength) times the recency
score.  The vectorWeight parameter is received but never read. -/
noncomputable def calculateHybridScore (params : HybridScoreParams) : ℝ :=
  let baseScore := params.vectorScore
  let chainBoost :=
    if 0 < params.linkStrength then
      1 + params.chainWeight * params.linkStrength
    else 1
  baseScore * chainBoost * params.recencyScore

/-- Options argument of HybridRetrieval.retrieve. -/
structure RetrieveOpts where
  maxResults : Option ℕ
  minScore : Option ℝ
  weekNumbers : Option (List ℕ)

/-- JS defaulting idiom x || d for an optional natural number: an absent
value and an explicit 0 both fall back to the default. -/
def jsOrNat (value : Option ℕ) (dflt : ℕ) : ℕ :=
  match value with
  | none => dflt
  | some v => if v = 0 then dflt else v

/-- JS defaulting idiom x || d for an optional number: an absent value and
an explicit 0 both fall back to the default. -/
noncomputable def jsOrReal (value : Option ℝ) (dflt : ℝ) : ℝ :=
  match value with
  | none => dflt
  | some v => if v = 0 then dflt else v

/-- Step 3a of retrieve: seed the merge map from the vector results. -/
noncomputable def mergeVectorResults
    (vectorResults : List VectorSearchResult) :
    List (String × HybridRetrievalResult) :=
  vectorResults.foldl (fun merged v =>
    mapSet merged v.id
      { id := v.id, sourceId := v.sourceId, vectorScore := v.score,
        chainScore := 0, linkStrength := 0, recencyScore := 1,
        hybridScore := v.score, linkType := none, hopDistance := none }) []

/-- Step 3b of retrieve: enrich the merge map with the chain results.  An
existing candidate keeps its vector score and takes the maximum chain score
and link strength; a new candidate starts with vector score 0 and a halved
initial hybrid score. -/
noncomputable def mergeChainResults
    (merged : List (String × HybridRetrievalResult))
    (chainResults : List ChainTraversalResult) :
    List (String × HybridRetrievalResult) :=
  chainResults.foldl (fun merged c =>
    let chainScore := calculateChainScore c.linkStrength c.hopDistance
    match mapGet merged c.id with
    | some existing =>
      mapSet merged c.id
        { existing with
          chainScore := max existing.chainScore chainScore,
          linkStrength := max existing.linkStrength c.linkStrength,
          linkType := some c.linkType,
          hopDistance := some c.hopDistance }
    | none =>
      mapSet merged c.id
        { id := c.id, sourceId := c.id, vectorScore := 0,
          chainScore := chainScore, linkStrength := c.linkStrength,
          recencyScore := 1, hybridScore := chainScore * 0.5,
          linkType := some c.linkType,
          hopDistance := some c.hopDistance }) merged

/-- Step 4 of retrieve applied to one merged entry: recompute the recency
score (when recencyBoost is set, from the current time for both arguments)
and the final hybrid score. -/
noncomputable def finalizeCandidate (config : HybridRetrievalConfig)
    (now : ℝ) (entry : HybridRetrievalResult) : HybridRetrievalResult :=
  let recencyScore :=
    if config.recencyBoost then
      calculateRecencyScore now now config.recencyHalfLifeHours
    else entry.recencyScore
  { entry with
    recencyScore := recencyScore,
    hybridScore := calculateHybridScore
      { vectorScore := entry.vectorScore,
        linkStrength := entry.linkStrength,
        recencyScore := recencyScore,
        vectorWeight := config.vectorWeight,
        chainWeight := config.chainWeight } }

/-- Steps 1 to 4 of HybridRetrieval.retrieve: vector search, chain
traversal from every seed, merge keyed by id in insertion order, and final
scoring.  This is the candidate list before filtering and ranking. -/
noncomputable def retrieveCandidates (config : HybridRetrievalConfig)
    (dimensions : ℕ) (store : List VectorEntry) (chainIndex : ChainIndex)
    (queryVector : List ℝ) (seedIds : List String) (opts : RetrieveOpts)
    (now : ℝ) : List HybridRetrievalResult :=
  let maxResults := jsOrNat opts.maxResults 10
  let vectorCandidatesLimit := maxResults * config.vectorCandidateMultiplier
  let vectorResults :=
    search dimensions store queryVector vectorCandidatesLimit opts.weekNumbers
  let chainResults := seedIds.foldl (fun acc seedId =>
    acc ++ traverseChain chainIndex seedId config.maxHops
      config.minLinkStrength) []
  let merged := mergeChainResults (mergeVectorResults vectorResults)
    chainResults
  (merged.map fun kv => kv.2).map (finalizeCandidate config now)

/-- Descending order on the final hybrid score, modelling the comparator
(a, b) => b.hybridScore - a.hybridScore of step 5. -/
def hybridDescOrder (a b : HybridRetrievalResult) : Prop :=
  b.hybridScore ≤ a.hybridScore

noncomputable instance : DecidableRel hybridDescOrder :=
  fun a b => inferInstanceAs (Decidable (b.hybridScore ≤ a.hybridScore))

instance : IsTotal HybridRetrievalResult hybridDescOrder :=
  ⟨fun a b => le_total b.hybridScore a.hybridScore⟩

instance : IsTrans HybridRetrievalResult hybridDescOrder :=
  ⟨fun _ _ _ h1 h2 => le_trans h2 h1⟩

/-- HybridRetrieval.retrieve: candidates filtered by the effective minimum
score, sorted descending by hybrid score, truncated to the effective
maximum result count. -/
noncomputable def retrieve (config : HybridRetrievalConfig)
    (dimensions : ℕ) (store : List VectorEntry) (chainIndex : ChainIndex)
    (queryVector : List ℝ) (seedIds : List String) (opts : RetrieveOpts)
    (now : ℝ) : List HybridRetrievalResult :=
  let maxResults := jsOrNat opts.maxResults 10
  let minScore := jsOrReal opts.minScore 0.3
  let results := retrieveCandidates config dimensions store chainIndex
    queryVector seedIds opts now
  (List.insertionSort hybridDescOrder
    (results.filter fun r => decide (minScore ≤ r.hybridScore))).take
    maxResults

/-! ## Helper lemmas on the JS Map model -/

theorem mapGet_mapSet_self {α : Type} (m : List (String × α)) (k : String)
    (v : α) : mapGet (mapSet m k v) k = some v := by
  induction m with
  | nil => simp [mapSet, mapGet]
  | cons kv rest ih =>
    by_cases h : kv.1 == k
    · simp [mapSet, mapGet, h]
    · simp [mapSet, mapGet, h, ih]

theorem mapGet_mapSet_ne {α : Type} (m : List (String × α)) (k k' : String)
    (v : α) (h : k' ≠ k) : mapGet (mapSet m k v) k' = mapGet m k' := by
  have hne : ¬ (k = k') := fun hh => h hh.symm
  induction m with
  | nil => simp [mapSet, mapGet, hne]
  | cons kv rest ih =>
    by_cases hk : kv.1 == k
    · have hk1 : kv.1 = k := by simpa using hk
      simp [mapSet, mapGet, hk, hk1, hne]
    · simp [mapSet, mapGet, hk, ih]

theorem mapGet_some_mem {α : Type} {m : List (String × α)} {k : String}
    {v : α} (h : mapGet m k = some v) : (k, v) ∈ m := by
  induction m with
  | nil => simp [mapGet] at h
  | cons kv rest ih =>
    by_cases hk : kv.1 == k
    · have hk1 : kv.1 = k := by simpa using hk
      have hv : kv.2 = v := by simpa [mapGet, hk] using h
      have hkv : kv = (k, v) := by rw [← hk1, ← hv]
      rw [← hkv]
      exact List.mem_cons_self kv rest
    · have h' : mapGet rest k = some v := by simpa [mapGet, hk] using h
      exact List.mem_cons_of_mem kv (ih h')

/-! ## C10: zero-norm similarity -/

/-- C10.  cosineSimilarity returns exactly 0 whenever either input vector
has zero norm; in particular the similarity of two zero vectors is 0,
not 1. -/
theorem C10_similarity_zero_norm (a b : List ℝ)
    (h : Real.sqrt ((a.map fun x => x * x).sum) = 0 ∨
         Real.sqrt ((b.map fun x => x * x).sum) = 0) :
    cosineSimilarity a b = 0 := by
  unfold cosineSimilarity
  rcases h with h | h <;>
  · split
    · rfl
    · simp [h]

/-- Witness for C10 at the concrete zero vector [0, 0]. -/
theorem C10_witness :
    (Real.sqrt ((([(0 : ℝ), 0]).map fun x => x * x).sum) = 0 ∨
     Real.sqrt ((([(0 : ℝ), 0]).map fun x => x * x).sum) = 0) ∧
    cosineSimilarity [(0 : ℝ), 0] [(0 : ℝ), 0] = 0 :=
  ⟨Or.inl (by simp), C10_similarity_zero_norm _ _ (Or.inl (by simp))⟩

/-! ## C3: vectorWeight has no influence on retrieve -/

/-- C3.  Two retrieve calls over identical store contents and identical
inputs whose configurations differ only in vectorWeight return identical
result lists: vectorWeight does not appear in the final-score formula. -/
theorem C3_vectorWeight_no_influence (config : HybridRetrievalConfig)
    (w : ℝ) (dimensions : ℕ) (store : List VectorEntry)
    (chainIndex : ChainIndex) (queryVector : List ℝ)
    (seedIds : List String) (opts : RetrieveOpts) (now : ℝ) :
    retrieve { config with vectorWeight := w } dimensions store chainIndex
        queryVector seedIds opts now =
      retrieve config dimensions store chainIndex queryVector seedIds opts
        now := rfl

/-! ## C4: the recency score is always 1 -/

theorem calculateRecencyScore_self (t h : ℝ) :
    calculateRecencyScore t t h = 1 := by
  unfold calculateRecencyScore
  split
  · rfl
  · simp [Real.exp_zero]

/-- C4.  Whenever recencyBoost is enabled, every candidate produced by
retrieve carries recencyScore = 1: the age is computed between the current
time and the current time, so the exponential decay evaluates to 1. -/
theorem C4_recency_always_one (config : HybridRetrievalConfig)
    (dimensions : ℕ) (store : List VectorEntry) (chainIndex : ChainIndex)
    (queryVector : List ℝ) (seedIds : List String) (opts : RetrieveOpts)
    (now : ℝ) (r : HybridRetrievalResult)
    (hb : config.recencyBoost = true)
    (hr : r ∈ retrieveCandidates config dimensions store chainIndex
      queryVector seedIds opts now) :
    r.recencyScore = 1 := by
  simp only [retrieveCandidates] at hr
  rcases List.mem_map.mp hr with ⟨e, _, rfl⟩
  simp [finalizeCandidate, hb, calculateRecencyScore_self]

/- The witness for C4 follows the concrete evaluation lemmas below. -/

/-! ## C9: removeLink removes only the forward edge -/

/-- C9.  removeLink removes exactly the forward edges from fromId to toId;
the adjacency list of every other node, in particular the one holding the
mirrored reverse edge, is unchanged. -/
theorem C9_removeLink_forward_only (index : ChainIndex)
    (fromId toId k : String) :
    getLinks (removeLink index fromId toId) fromId =
        (getLinks index fromId).filter (fun l => l.toId != toId) ∧
      (k ≠ fromId →
        getLinks (removeLink index fromId toId) k = getLinks index k) := by
  unfold removeLink getLinks
  dsimp only
  constructor
  · split
    · simp [mapGet_mapSet_self]
    · next hlen =>
      have hle := List.length_filter_le (fun l => l.toId != toId)
        ((mapGet index fromId).getD [])
      have heq : (((mapGet index fromId).getD []).filter
          (fun l => l.toId != toId)).length =
          ((mapGet index fromId).getD []).length := le_antisymm hle
        (le_of_not_lt hlen)
      rw [List.filter_length_eq_length] at heq
      exact (List.filter_eq_self.mpr heq).symm
  · intro hk
    split
    · simp [mapGet_mapSet_ne _ _ _ _ hk]
    · rfl

/-- Witness for C9 at a concrete two-edge index: removing the forward edge
leaves the mirrored reverse edge of the other node in place. -/
theorem C9_witness :
    (getLinks (removeLink (addLink [] "a" "b" ChainLinkType.related
        (1 / 2) 0 none) "a" "b") "a" =
      (getLinks (addLink [] "a" "b" ChainLinkType.related (1 / 2) 0 none)
        "a").filter (fun l => l.toId != "b")) ∧
    getLinks (removeLink (addLink [] "a" "b" ChainLinkType.related
        (1 / 2) 0 none) "a" "b") "b" =
      getLinks (addLink [] "a" "b" ChainLinkType.related (1 / 2) 0 none)
        "b" :=
  ⟨(C9_removeLink_forward_only _ "a" "b" "b").1,
    (C9_removeLink_forward_only _ "a" "b" "b").2 (by decide)⟩

/-! ## C5: traversal processes every node at most once -/

theorem traverseChainAux_processed_nodup (index : ChainIndex)
    (maxHops : ℕ) (minStrength : ℝ) :
    ∀ (fuel : ℕ) (queue : List QueueEntry) (visited : List String),
      (traverseChainAux index maxHops minStrength fuel queue
        visited).2.Nodup ∧
      ∀ id ∈ (traverseChainAux index maxHops minStrength fuel queue
        visited).2, id ∉ visited := by
  intro fuel
  induction fuel with
  | zero => intro queue visited; simp [traverseChainAux]
  | succ n ih =>
    intro queue visited
    cases queue with
    | nil => simp [traverseChainAux]
    | cons current rest =>
      by_cases hv : current.id ∈ visited
      · simpa [traverseChainAux, hv] using ih rest visited
      · by_cases hh : maxHops ≤ current.hops
        · have hrec := ih rest (current.id :: visited)
          simp only [traverseChainAux, if_neg hv, if_pos hh]
          constructor
          · refine List.Nodup.cons ?_ hrec.1
            intro hmem
            exact (hrec.2 _ hmem) (List.mem_cons_self _ _)
          · intro id hid
            rcases List.mem_cons.mp hid with rfl | hid'
            · exact hv
            · exact fun hvv => (hrec.2 _ hid') (List.mem_cons_of_mem _ hvv)
        · have hrec := ih (rest ++ ((getLinks index current.id).filter
            fun l => !decide (l.strength < minStrength) &&
              !decide (l.toId ∈ current.id :: visited)).map fun l =>
                ({ id := l.toId, hops := current.hops + 1,
                   path := current.path ++ " -> " ++ l.toId } : QueueEntry))
            (current.id :: visited)
          simp only [traverseChainAux, if_neg hv, if_neg hh]
          constructor
          · refine List.Nodup.cons ?_ hrec.1
            intro hmem
            exact (hrec.2 _ hmem) (List.mem_cons_self _ _)
          · intro id hid
            rcases List.mem_cons.mp hid with rfl | hid'
            · exact hv
            · exact fun hvv => (hrec.2 _ hid') (List.mem_cons_of_mem _ hvv)

/-- C5 (amended).  traverseChain dequeues and expands each node at most
once: the trace of processed node ids is duplicate-free.  (The emitted
result list, by contrast, may repeat an id: every edge reaching a node
before its first dequeue emits its own result — see the
counterexample.) -/
theorem C5_visits_each_node_at_most_once (index : ChainIndex)
    (startId : String) (maxHops : ℕ) (minStrength : ℝ) :
    (traverseChainTrace index startId maxHops minStrength).2.Nodup :=
  (traverseChainAux_processed_nodup index maxHops minStrength _ _ _).1

/-! ## Concrete scenario data used by counterexamples and witnesses -/

/-- A stored embedding of dimension 1. -/
def exEntryA : VectorEntry :=
  { id := "a", vector := [1], weekNumber := 0, timestamp := "t",
    sourceId := "s" }

/-- A second stored embedding identical in direction to exEntryA. -/
def exEntryB : VectorEntry :=
  { id := "b", vector := [1], weekNumber := 0, timestamp := "t",
    sourceId := "sb" }

theorem search_c6_eval :
    search 1 [exEntryA, exEntryB] [(1 : ℝ)] 2 none =
      [{ id := "a", score := 1, sourceId := "s", weekNumber := 0 },
       { id := "b", score := 1, sourceId := "sb", weekNumber := 0 }] := by
  norm_num [search, loadVectors, normalizeVector, cosineSimilarity,
    exEntryA, exEntryB, scoreDescOrder, Real.sqrt_one,
    List.insertionSort, List.orderedInsert]

/-! ## C6: properties of search -/

theorem search_pos (dimensions : ℕ) (store : List VectorEntry)
    (queryVector : List ℝ) (k : ℕ) (weekNumbers : Option (List ℕ))
    (r : VectorSearchResult)
    (h : r ∈ search dimensions store queryVector k weekNumbers) :
    0 < r.score := by
  unfold search at h
  dsimp only at h
  have h1 := List.mem_of_mem_take h
  have h2 := (List.perm_insertionSort scoreDescOrder _).mem_iff.mp h1
  exact of_decide_eq_true (List.mem_filter.mp h2).2

/-- C6 counterexample.  Two identical stored vectors both score 1.0, so
the output of search is not strictly descending by score: the claim of
strictly decreasing scores fails. -/
theorem C6_counterexample :
    ¬ List.Sorted (fun a b : VectorSearchResult => b.score < a.score)
      (search 1 [exEntryA, exEntryB] [(1 : ℝ)] 2 none) := by
  rw [search_c6_eval]
  intro hsorted
  have := List.rel_of_sorted_cons hsorted _ (List.mem_cons_self _ _)
  norm_num at this

/-- C6 (amended).  search returns at most k results, sorted by
non-increasing score (adjacent equal scores are possible, in stable
order), and every returned result has score > 0. -/
theorem C6_search_bounds (dimensions : ℕ) (store : List VectorEntry)
    (queryVector : List ℝ) (k : ℕ) (weekNumbers : Option (List ℕ))
    (r : VectorSearchResult) :
    ((search dimensions store queryVector k weekNumbers).length ≤ k) ∧
    List.Sorted scoreDescOrder
      (search dimensions store queryVector k weekNumbers) ∧
    (r ∈ search dimensions store queryVector k weekNumbers →
      0 < r.score) := by
  refine ⟨?_, ?_, search_pos dimensions store queryVector k weekNumbers r⟩
  · unfold search
    dsimp only
    exact List.length_take_le _ _
  · unfold search
    dsimp only
    exact (List.sorted_insertionSort scoreDescOrder _).sublist
      (List.take_sublist _ _)

/-- Witness for C6 at the concrete two-entry store. -/
theorem C6_witness :
    ((search 1 [exEntryA, exEntryB] [(1 : ℝ)] 2 none).length ≤ 2) ∧
    List.Sorted scoreDescOrder
      (search 1 [exEntryA, exEntryB] [(1 : ℝ)] 2 none) ∧
    (0 : ℝ) <
      ({ id := "a", score := 1, sourceId := "s", weekNumber := 0 } :
        VectorSearchResult).score :=
  ⟨(C6_search_bounds 1 [exEntryA, exEntryB] [(1 : ℝ)] 2 none
      { id := "a", score := 1, sourceId := "s", weekNumber := 0 }).1,
   (C6_search_bounds 1 [exEntryA, exEntryB] [(1 : ℝ)] 2 none
      { id := "a", score := 1, sourceId := "s", weekNumber := 0 }).2.1,
   (C6_search_bounds 1 [exEntryA, exEntryB] [(1 : ℝ)] 2 none
      { id := "a", score := 1, sourceId := "s", weekNumber := 0 }).2.2
      (by rw [search_c6_eval]; exact List.mem_cons_self _ _)⟩

/-! ## Concrete retrieval scenarios -/

/-- Configuration with the recency boost switched off. -/
noncomputable def cfgNoBoost : HybridRetrievalConfig :=
  { DEFAULT_HYBRID_CONFIG with recencyBoost := false }

/-- The candidate that retrieve produces from exEntryA alone. -/
def exCandA : HybridRetrievalResult :=
  { id := "a", sourceId := "s", vectorScore := 1, chainScore := 0,
    linkStrength := 0, recencyScore := 1, hybridScore := 1,
    linkType := none, hopDistance := none }

/-- A single strong link from node x to node g. -/
def exChainLink : MemoryChainLink :=
  { fromId := "x", toId := "g", linkType := ChainLinkType.related,
    strength := 1, createdAt := 0, metadata := none }

/-- A chain index holding only the link x to g. -/
def exChainIdx : ChainIndex := [("x", [exChainLink])]

/-- The graph-only candidate that retrieveCandidates produces from
exChainIdx with seed x and an empty vector store. -/
def exCandG : HybridRetrievalResult :=
  { id := "g", sourceId := "g", vectorScore := 0, chainScore := 1,
    linkStrength := 1, recencyScore := 1, hybridScore := 0,
    linkType := some ChainLinkType.related, hopDistance := some 1 }

theorem retrieve_a0_eval :
    retrieve cfgNoBoost 1 [exEntryA] [] [(1 : ℝ)] []
      ⟨some 0, none, none⟩ 0 = [exCandA] := by
  norm_num [retrieve, retrieveCandidates, jsOrNat, jsOrReal, search,
    loadVectors, normalizeVector, cosineSimilarity, Real.sqrt_one,
    scoreDescOrder, hybridDescOrder, List.insertionSort,
    List.orderedInsert, mergeVectorResults, mergeChainResults, mapSet,
    mapGet, finalizeCandidate, calculateHybridScore, exEntryA, exCandA,
    cfgNoBoost, DEFAULT_HYBRID_CONFIG]

theorem retrieve_a_eval :
    retrieve cfgNoBoost 1 [exEntryA] [] [(1 : ℝ)] []
      ⟨none, none, none⟩ 0 = [exCandA] := by
  norm_num [retrieve, retrieveCandidates, jsOrNat, jsOrReal, search,
    loadVectors, normalizeVector, cosineSimilarity, Real.sqrt_one,
    scoreDescOrder, hybridDescOrder, List.insertionSort,
    List.orderedInsert, mergeVectorResults, mergeChainResults, mapSet,
    mapGet, finalizeCandidate, calculateHybridScore, exEntryA, exCandA,
    cfgNoBoost, DEFAULT_HYBRID_CONFIG]

theorem candidates_a_boost_eval :
    retrieveCandidates DEFAULT_HYBRID_CONFIG 1 [exEntryA] [] [(1 : ℝ)] []
      ⟨none, none, none⟩ 0 = [exCandA] := by
  norm_num [retrieveCandidates, jsOrNat, search, loadVectors,
    normalizeVector, cosineSimilarity, Real.sqrt_one, scoreDescOrder,
    List.insertionSort, List.orderedInsert, mergeVectorResults,
    mergeChainResults, mapSet, mapGet, finalizeCandidate,
    calculateRecencyScore_self, calculateHybridScore, exEntryA, exCandA,
    DEFAULT_HYBRID_CONFIG]

theorem candidates_g_eval :
    retrieveCandidates cfgNoBoost 1 [] exChainIdx [] ["x"]
      ⟨none, none, none⟩ 0 = [exCandG] := by
  simp [retrieveCandidates, jsOrNat, search, loadVectors,
    normalizeVector, cosineSimilarity, Real.sqrt_zero, scoreDescOrder,
    List.insertionSort, List.orderedInsert, traverseChain,
    traverseChainTrace, traverseChainAux, totalLinkCount, getLinks,
    mapGet, mapSet, calculateChainScore, mergeVectorResults,
    mergeChainResults, finalizeCandidate, calculateHybridScore,
    exChainIdx, exChainLink, exCandG, cfgNoBoost, DEFAULT_HYBRID_CONFIG,
    List.filter_cons, List.filter_nil,
    show ¬ ((1 : ℝ) < 3 / 10) by norm_num,
    show ((0.3 : ℝ) ≤ 1) by norm_num]

/-- Witness for C4: in the concrete recencyBoost-enabled retrieval over
exEntryA, the produced candidate has recency score 1. -/
theorem C4_witness :
    DEFAULT_HYBRID_CONFIG.recencyBoost = true ∧ exCandA.recencyScore = 1 :=
  ⟨rfl, C4_recency_always_one DEFAULT_HYBRID_CONFIG 1 [exEntryA] []
    [(1 : ℝ)] [] ⟨none, none, none⟩ 0 exCandA rfl
    (by rw [candidates_a_boost_eval]; exact List.mem_cons_self _ _)⟩

/-! ## C5 counterexample: a node id emitted twice -/

/-- A strength-1 related link between two given nodes. -/
def c5Link (f t : String) : MemoryChainLink :=
  { fromId := f, toId := t, linkType := ChainLinkType.related,
    strength := 1, createdAt := 0, metadata := none }

/-- A diamond graph: x links to a and b, and both a and b link to c. -/
def c5Index : ChainIndex :=
  [("x", [c5Link "x" "a", c5Link "x" "b"]),
   ("a", [c5Link "a" "c"]),
   ("b", [c5Link "b" "c"])]

theorem traverse_c5_eval :
    (traverseChain c5Index "x" 3 0).map (fun r => r.id) =
      ["a", "b", "c", "c"] := by
  simp [traverseChain, traverseChainTrace, traverseChainAux,
    totalLinkCount, getLinks, mapGet, c5Index, c5Link, List.filter_cons,
    List.filter_nil, show ¬ ((1 : ℝ) < 0) by norm_num,
    show ((0 : ℝ) ≤ 1) by norm_num]

/-- C5 counterexample.  In the diamond graph x to a and b, both to c, the
node c is enqueued and emitted by both parents before its first dequeue:
its id occurs twice in the result list of traverseChain, refuting the
claim that each node id occurs at most once there. -/
theorem C5_counterexample :
    ¬ ((traverseChain c5Index "x" 3 0).map (fun r => r.id)).Nodup := by
  rw [traverse_c5_eval]
  decide

/-! ## C1: effective filtering and truncation bounds of retrieve -/

theorem mem_retrieve {config : HybridRetrievalConfig} {dimensions : ℕ}
    {store : List VectorEntry} {chainIndex : ChainIndex}
    {queryVector : List ℝ} {seedIds : List String} {opts : RetrieveOpts}
    {now : ℝ} {r : HybridRetrievalResult}
    (h : r ∈ retrieve config dimensions store chainIndex queryVector
      seedIds opts now) :
    r ∈ retrieveCandidates config dimensions store chainIndex queryVector
        seedIds opts now ∧
      jsOrReal opts.minScore 0.3 ≤ r.hybridScore := by
  unfold retrieve at h
  dsimp only at h
  have h1 := List.mem_of_mem_take h
  have h2 := (List.perm_insertionSort hybridDescOrder _).mem_iff.mp h1
  exact ⟨(List.mem_filter.mp h2).1,
    of_decide_eq_true (List.mem_filter.mp h2).2⟩

/-- C1 (amended).  Every result of retrieve has hybridScore at least the
effective minimum score (minScore || 0.3) and the result count is at most
the effective maximum (maxResults || 10).  Because of the JS defaulting
idiom, an explicit 0 falls back to the default, so the bounds hold for the
effective values, not the caller-passed ones. -/
theorem C1_retrieve_effective_bounds (config : HybridRetrievalConfig)
    (dimensions : ℕ) (store : List VectorEntry) (chainIndex : ChainIndex)
    (queryVector : List ℝ) (seedIds : List String) (opts : RetrieveOpts)
    (now : ℝ) (r : HybridRetrievalResult) :
    ((retrieve config dimensions store chainIndex queryVector seedIds opts
        now).length ≤ jsOrNat opts.maxResults 10) ∧
    (r ∈ retrieve config dimensions store chainIndex queryVector seedIds
        opts now →
      jsOrReal opts.minScore 0.3 ≤ r.hybridScore) := by
  constructor
  · unfold retrieve
    dsimp only
    exact List.length_take_le _ _
  · exact fun h => (mem_retrieve h).2

/-- C1 counterexample.  With an explicit maxResults = 0 the effective
limit is 10, and a store holding one matching entry yields one result:
the returned count is not at most the caller-passed maxResults = 0. -/
theorem C1_counterexample :
    ¬ ((retrieve cfgNoBoost 1 [exEntryA] [] [(1 : ℝ)] []
        ⟨some 0, none, none⟩ 0).length ≤ 0) := by
  rw [retrieve_a0_eval]
  simp

/-- Witness for C1 at a concrete one-entry retrieval. -/
theorem C1_witness :
    ((retrieve cfgNoBoost 1 [exEntryA] [] [(1 : ℝ)] []
        ⟨none, none, none⟩ 0).length ≤ jsOrNat none 10) ∧
    jsOrReal none 0.3 ≤ exCandA.hybridScore :=
  ⟨(C1_retrieve_effective_bounds cfgNoBoost 1 [exEntryA] [] [(1 : ℝ)] []
      ⟨none, none, none⟩ 0 exCandA).1,
   (C1_retrieve_effective_bounds cfgNoBoost 1 [exEntryA] [] [(1 : ℝ)] []
      ⟨none, none, none⟩ 0 exCandA).2
     (by rw [retrieve_a_eval]; exact List.mem_cons_self _ _)⟩

/-! ## C2: graph-only candidates score zero and never pass a positive
minScore -/

theorem mapSet_forall {α : Type} {P : String × α → Prop} :
    ∀ (m : List (String × α)) (k : String) (v : α),
      (∀ kv ∈ m, P kv) → P (k, v) → ∀ kv ∈ mapSet m k v, P kv := by
  intro m
  induction m with
  | nil =>
    intro k v _ hv kv hkv
    simp [mapSet] at hkv
    rw [hkv]
    exact hv
  | cons hd tl ih =>
    intro k v hm hv kv hkv
    by_cases h : hd.1 == k
    · simp [mapSet, h] at hkv
      rcases hkv with rfl | hkv
      · exact hv
      · exact hm kv (List.mem_cons_of_mem hd hkv)
    · simp only [mapSet, h, Bool.false_eq_true, if_false] at hkv
      rcases List.mem_cons.mp hkv with rfl | hkv
      · exact hm kv (List.mem_cons_self _ _)
      · exact ih k v (fun x hx => hm x (List.mem_cons_of_mem hd hx)) hv
          kv hkv

theorem mergeVectorResults_inv (vectorResults : List VectorSearchResult)
    (hv : ∀ v ∈ vectorResults, 0 < v.score) :
    ∀ kv ∈ mergeVectorResults vectorResults,
      kv.2.vectorScore = 0 ∨ 0 < kv.2.vectorScore := by
  unfold mergeVectorResults
  refine List.foldlRecOn
    (motive := fun (acc : List (String × HybridRetrievalResult)) =>
      ∀ kv ∈ acc, kv.2.vectorScore = 0 ∨ 0 < kv.2.vectorScore)
    vectorResults _ [] (by simp) ?_
  intro acc hacc v hvmem
  exact mapSet_forall acc v.id _ hacc (Or.inr (hv v hvmem))

theorem mergeChainResults_inv
    (merged : List (String × HybridRetrievalResult))
    (chainResults : List ChainTraversalResult)
    (hm : ∀ kv ∈ merged, kv.2.vectorScore = 0 ∨ 0 < kv.2.vectorScore) :
    ∀ kv ∈ mergeChainResults merged chainResults,
      kv.2.vectorScore = 0 ∨ 0 < kv.2.vectorScore := by
  unfold mergeChainResults
  refine List.foldlRecOn
    (motive := fun (acc : List (String × HybridRetrievalResult)) =>
      ∀ kv ∈ acc, kv.2.vectorScore = 0 ∨ 0 < kv.2.vectorScore)
    chainResults _ merged hm ?_
  intro acc hacc c _
  dsimp only
  cases hget : mapGet acc c.id with
  | some existing =>
    exact mapSet_forall acc c.id _ hacc
      (hacc (c.id, existing) (mapGet_some_mem hget))
  | none =>
    exact mapSet_forall acc c.id _ hacc (Or.inl rfl)

theorem retrieveCandidates_vectorScore (config : HybridRetrievalConfig)
    (dimensions : ℕ) (store : List VectorEntry) (chainIndex : ChainIndex)
    (queryVector : List ℝ) (seedIds : List String) (opts : RetrieveOpts)
    (now : ℝ) (r : HybridRetrievalResult)
    (hr : r ∈ retrieveCandidates config dimensions store chainIndex
      queryVector seedIds opts now) :
    r.vectorScore = 0 ∨ 0 < r.vectorScore := by
  simp only [retrieveCandidates] at hr
  rcases List.mem_map.mp hr with ⟨e, he, rfl⟩
  rcases List.mem_map.mp he with ⟨kv, hkv, rfl⟩
  have hP := mergeChainResults_inv _ _
    (mergeVectorResults_inv _ (fun v hv =>
      search_pos dimensions store queryVector _ opts.weekNumbers v hv))
    kv hkv
  simpa [finalizeCandidate] using hP

theorem candidates_zero_vectorScore_hybrid (config : HybridRetrievalConfig)
    (dimensions : ℕ) (store : List VectorEntry) (chainIndex : ChainIndex)
    (queryVector : List ℝ) (seedIds : List String) (opts : RetrieveOpts)
    (now : ℝ) (r : HybridRetrievalResult)
    (hr : r ∈ retrieveCandidates config dimensions store chainIndex
      queryVector seedIds opts now)
    (h0 : r.vectorScore = 0) : r.hybridScore = 0 := by
  simp only [retrieveCandidates] at hr
  rcases List.mem_map.mp hr with ⟨e, _, rfl⟩
  have he0 : e.vectorScore = 0 := h0
  simp [finalizeCandidate, calculateHybridScore, he0]

/-- C2.  A merged candidate produced only by graph traversal has
vectorScore 0, and the step-5 recomputation makes its final hybridScore
exactly 0 (overwriting the initial halved chain score); consequently,
whenever the effective minScore is positive, every candidate in the output
of retrieve has vectorScore > 0, so graph-only candidates never appear. -/
theorem C2_graph_only_scores_zero (config : HybridRetrievalConfig)
    (dimensions : ℕ) (store : List VectorEntry) (chainIndex : ChainIndex)
    (queryVector : List ℝ) (seedIds : List String) (opts : RetrieveOpts)
    (now : ℝ) (r : HybridRetrievalResult) :
    (r ∈ retrieveCandidates config dimensions store chainIndex queryVector
        seedIds opts now →
      r.vectorScore = 0 → r.hybridScore = 0) ∧
    (0 < jsOrReal opts.minScore 0.3 →
      r ∈ retrieve config dimensions store chainIndex queryVector seedIds
        opts now →
      0 < r.vectorScore) := by
  constructor
  · exact candidates_zero_vectorScore_hybrid config dimensions store
      chainIndex queryVector seedIds opts now r
  · intro hmin hr
    obtain ⟨hc, hs⟩ := mem_retrieve hr
    have hpos : 0 < r.hybridScore := lt_of_lt_of_le hmin hs
    rcases retrieveCandidates_vectorScore config dimensions store
      chainIndex queryVector seedIds opts now r hc with h0 | h1
    · exact absurd (candidates_zero_vectorScore_hybrid config dimensions
        store chainIndex queryVector seedIds opts now r hc h0)
        (by intro hz; rw [hz] at hpos; exact lt_irrefl 0 hpos)
    · exact h1

/-- Witness for C2: the concrete graph-only candidate exCandG ends with
hybrid score 0, and in the concrete vector retrieval with the default
effective minScore 0.3 the returned candidate has positive vectorScore. -/
theorem C2_witness :
    exCandG.hybridScore = 0 ∧ (0 : ℝ) < exCandA.vectorScore :=
  ⟨(C2_graph_only_scores_zero cfgNoBoost 1 [] exChainIdx [] ["x"]
      ⟨none, none, none⟩ 0 exCandG).1
      (by rw [candidates_g_eval]; exact List.mem_cons_self _ _) rfl,
   (C2_graph_only_scores_zero cfgNoBoost 1 [exEntryA] [] [(1 : ℝ)] []
      ⟨none, none, none⟩ 0 exCandA).2
      (by norm_num [jsOrReal])
      (by rw [retrieve_a_eval]; exact List.mem_cons_self _ _)⟩

/-! ## C7: addLink inserts a forward edge and its mirror -/

theorem addLink_getLinks_from (index : ChainIndex) (A B : String)
    (t : ChainLinkType) (s now : ℝ) (m : Option (List (String × String)))
    (hAB : A ≠ B) (hF : ∀ l ∈ getLinks index A, l.toId ≠ B) :
    getLinks (addLink index A B t s now m) A =
      getLinks index A ++
        [{ fromId := A, toId := B, linkType := t, strength := s,
           createdAt := now, metadata := m }] := by
  have hFnone : ((mapGet index A).getD []).find?
      (fun l => l.toId == B) = none :=
    List.find?_eq_none.mpr (fun l hl => by simpa using hF l hl)
  unfold addLink getLinks
  dsimp only
  simp only [hFnone, Option.isSome_none, Bool.false_eq_true, if_false]
  split
  · rw [mapGet_mapSet_self]
    rfl
  · rw [mapGet_mapSet_ne _ _ _ _ hAB, mapGet_mapSet_self]
    rfl

theorem addLink_getLinks_to (index : ChainIndex) (A B : String)
    (t : ChainLinkType) (s now : ℝ) (m : Option (List (String × String)))
    (hAB : A ≠ B) (hF : ∀ l ∈ getLinks index A, l.toId ≠ B)
    (hR : ∀ l ∈ getLinks index B, l.toId ≠ A) :
    getLinks (addLink index A B t s now m) B =
      getLinks index B ++
        [{ fromId := B, toId := A, linkType := getReverseType t,
           strength := s, createdAt := now, metadata := m }] := by
  have hFnone : ((mapGet index A).getD []).find?
      (fun l => l.toId == B) = none :=
    List.find?_eq_none.mpr (fun l hl => by simpa using hF l hl)
  have hRnone : ((mapGet index B).getD []).find?
      (fun l => l.toId == A) = none :=
    List.find?_eq_none.mpr (fun l hl => by simpa using hR l hl)
  unfold addLink getLinks
  dsimp only
  simp only [hFnone, Option.isSome_none, Bool.false_eq_true, if_false]
  rw [mapGet_mapSet_ne _ _ _ _ (Ne.symm hAB)]
  simp only [hRnone, Option.isSome_none, Bool.false_eq_true, if_false]
  rw [mapGet_mapSet_self]
  rfl

/-- C7 (amended).  When A and B are distinct and neither an A to B edge
nor a B to A edge exists yet, addLink(A, B, type, s) appends to
getLinks(A) the forward edge with the given type and strength, and to
getLinks(B) the mirrored reverse edge with parent and child swapped and
the strength copied unchanged.  (On an index already holding either edge
the corresponding insertion is skipped — first write wins — which refutes
the unconditional claim; see the counterexample.) -/
theorem C7_addLink_mirrored (index : ChainIndex) (A B : String)
    (t : ChainLinkType) (s now : ℝ) (m : Option (List (String × String)))
    (hAB : A ≠ B) (hF : ∀ l ∈ getLinks index A, l.toId ≠ B)
    (hR : ∀ l ∈ getLinks index B, l.toId ≠ A) :
    getLinks (addLink index A B t s now m) A =
      getLinks index A ++
        [{ fromId := A, toId := B, linkType := t, strength := s,
           createdAt := now, metadata := m }] ∧
    getLinks (addLink index A B t s now m) B =
      getLinks index B ++
        [{ fromId := B, toId := A, linkType := getReverseType t,
           strength := s, createdAt := now, metadata := m }] :=
  ⟨addLink_getLinks_from index A B t s now m hAB hF,
   addLink_getLinks_to index A B t s now m hAB hF hR⟩

/-- Witness for C7 on the empty index with a parent link. -/
theorem C7_witness :
    getLinks (addLink [] "a" "b" ChainLinkType.parent (4 / 5) 0 none)
        "a" =
      getLinks [] "a" ++
        [{ fromId := "a", toId := "b", linkType := ChainLinkType.parent,
           strength := 4 / 5, createdAt := 0, metadata := none }] ∧
    getLinks (addLink [] "a" "b" ChainLinkType.parent (4 / 5) 0 none)
        "b" =
      getLinks [] "b" ++
        [{ fromId := "b", toId := "a",
           linkType := getReverseType ChainLinkType.parent,
           strength := 4 / 5, createdAt := 0, metadata := none }] :=
  C7_addLink_mirrored [] "a" "b" ChainLinkType.parent (4 / 5) 0 none
    (by decide) (by simp [getLinks, mapGet]) (by simp [getLinks, mapGet])

/-- The index after a first addLink from a to b. -/
noncomputable def c7Index : ChainIndex :=
  addLink [] "a" "b" ChainLinkType.related (1 / 2) 0 none

/-- C7 counterexample.  On an index already holding an a to b edge, a
second addLink with a different type and strength is a no-op: getLinks("a")
does not contain the newly requested parent edge of strength 4/5, so the
claim does not hold on every index state. -/
theorem C7_counterexample :
    ¬ ∃ l ∈ getLinks (addLink c7Index "a" "b" ChainLinkType.parent
        (4 / 5) 0 none) "a",
      l.toId = "b" ∧ l.linkType = ChainLinkType.parent ∧
        l.strength = 4 / 5 := by
  have heval : getLinks (addLink c7Index "a" "b" ChainLinkType.parent
      (4 / 5) 0 none) "a" =
      [{ fromId := "a", toId := "b", linkType := ChainLinkType.related,
         strength := 1 / 2, createdAt := 0, metadata := none }] := by
    simp [c7Index, addLink, getLinks, mapGet, mapSet, getReverseType]
  rw [heval]
  rintro ⟨l, hl, -, hty, -⟩
  rw [List.mem_singleton.mp hl] at hty
  exact absurd hty (by decide)

/-! ## C8: at most one edge per ordered pair, first write wins -/

/-- One mutation of the chain linkage store. -/
inductive ChainOp where
  | add (fromId toId : String) (linkType : ChainLinkType) (strength : ℝ)
      (now : ℝ) (metadata : Option (List (String × String)))
  | remove (fromId toId : String)

/-- Replay a sequence of addLink and removeLink calls from the empty
index. -/
noncomputable def applyChainOps (ops : List ChainOp) : ChainIndex :=
  ops.foldl (fun index op =>
    match op with
    | ChainOp.add f t ty s now m => addLink index f t ty s now m
    | ChainOp.remove f t => removeLink index f t) []

/-- Number of stored edges with the given ordered (from, to) pair. -/
def edgeCount (index : ChainIndex) (fromId toId : String) : ℕ :=
  ((index.map fun kv => kv.2).flatten.filter fun l =>
    l.fromId == fromId && l.toId == toId).length

/-- Structural invariant of the adjacency index: keys are unique, every
adjacency list has pairwise-distinct targets, and every stored link starts
at its key. -/
def wellFormedIndex (index : ChainIndex) : Prop :=
  (index.map fun kv => kv.1).Nodup ∧
  ∀ kv ∈ index,
    (kv.2.map fun l => l.toId).Nodup ∧ ∀ l ∈ kv.2, l.fromId = kv.1

theorem wellFormedIndex_nil : wellFormedIndex [] := by
  simp [wellFormedIndex]

theorem wellFormedIndex_tail {kv : String × List MemoryChainLink}
    {rest : ChainIndex} (h : wellFormedIndex (kv :: rest)) :
    wellFormedIndex rest := by
  obtain ⟨h1, h2⟩ := h
  rw [List.map_cons] at h1
  exact ⟨(List.nodup_cons.mp h1).2,
    fun x hx => h2 x (List.mem_cons_of_mem kv hx)⟩

theorem mapSet_key_mem {α : Type} (m : List (String × α)) (k k' : String)
    (v : α) (h : k' ∈ (mapSet m k v).map fun kv => kv.1) :
    k' = k ∨ k' ∈ m.map fun kv => kv.1 := by
  induction m with
  | nil =>
    simp [mapSet] at h
    exact Or.inl h
  | cons hd tl ih =>
    by_cases hh : hd.1 == k
    · simp only [mapSet, hh, if_true, List.map_cons] at h
      rcases List.mem_cons.mp h with h | h
      · exact Or.inl h
      · exact Or.inr (List.mem_cons_of_mem _ h)
    · simp only [mapSet, hh, Bool.false_eq_true, if_false,
        List.map_cons] at h
      rcases List.mem_cons.mp h with h | h
      · subst h
        exact Or.inr (List.mem_cons_self _ _)
      · rcases ih h with h | h
        · exact Or.inl h
        · exact Or.inr (List.mem_cons_of_mem _ h)

theorem wellFormedIndex_mapSet (m : ChainIndex) (k : String)
    (v : List MemoryChainLink) (hm : wellFormedIndex m)
    (hv1 : (v.map fun l => l.toId).Nodup)
    (hv2 : ∀ l ∈ v, l.fromId = k) :
    wellFormedIndex (mapSet m k v) := by
  induction m with
  | nil =>
    refine ⟨by simp [mapSet], ?_⟩
    intro kv hkv
    simp [mapSet] at hkv
    rw [hkv]
    exact ⟨hv1, hv2⟩
  | cons hd tl ih =>
    have htl := wellFormedIndex_tail hm
    have h1 := hm.1
    rw [List.map_cons] at h1
    have hhd := hm.2 hd (List.mem_cons_self _ _)
    by_cases hh : hd.1 == k
    · have hk1 : hd.1 = k := by simpa using hh
      simp only [mapSet, hh, if_true]
      refine ⟨?_, ?_⟩
      · rw [List.map_cons]
        exact List.nodup_cons.mpr ⟨hk1 ▸ (List.nodup_cons.mp h1).1,
          (List.nodup_cons.mp h1).2⟩
      · intro kv hkv
        rcases List.mem_cons.mp hkv with rfl | hkv
        · exact ⟨hv1, hv2⟩
        · exact htl.2 kv hkv
    · simp only [mapSet, hh, Bool.false_eq_true, if_false]
      have hrec := ih htl
      refine ⟨?_, ?_⟩
      · rw [List.map_cons]
        refine List.nodup_cons.mpr ⟨?_, hrec.1⟩
        intro hmem
        rcases mapSet_key_mem tl k hd.1 v hmem with heq | hmem'
        · exact absurd heq (by simpa using hh)
        · exact (List.nodup_cons.mp h1).1 hmem'
      · intro kv hkv
        rcases List.mem_cons.mp hkv with rfl | hkv
        · exact hhd
        · exact hrec.2 kv hkv

theorem wellFormedIndex_insert (index : ChainIndex) (k : String)
    (link : MemoryChainLink) (hk : link.fromId = k)
    (h : wellFormedIndex index) :
    wellFormedIndex
      (if (((mapGet index k).getD []).find? fun l =>
          l.toId == link.toId).isSome
       then index
       else mapSet index k ((mapGet index k).getD [] ++ [link])) := by
  split
  · exact h
  · next hcond =>
    have hfind : ((mapGet index k).getD []).find?
        (fun l => l.toId == link.toId) = none :=
      Option.not_isSome_iff_eq_none.mp (by simpa using hcond)
    have hprops : (((mapGet index k).getD []).map fun l => l.toId).Nodup ∧
        ∀ l ∈ (mapGet index k).getD [], l.fromId = k := by
      cases hg : mapGet index k with
      | none => simp
      | some w => simpa using h.2 (k, w) (mapGet_some_mem hg)
    refine wellFormedIndex_mapSet index k _ h ?_ ?_
    · rw [List.map_append]
      refine List.Nodup.append hprops.1 (by simp) ?_
      intro x hx1 hx2
      rcases List.mem_map.mp hx1 with ⟨l, hl, rfl⟩
      have := List.find?_eq_none.mp hfind l hl
      simp at hx2
      exact absurd (by simp [hx2]) this
    · intro l hl
      rcases List.mem_append.mp hl with h1 | h2
      · exact hprops.2 l h1
      · rw [List.mem_singleton.mp h2]
        exact hk

theorem wellFormedIndex_addLink (index : ChainIndex) (A B : String)
    (t : ChainLinkType) (s now : ℝ) (m : Option (List (String × String)))
    (h : wellFormedIndex index) :
    wellFormedIndex (addLink index A B t s now m) := by
  unfold addLink
  dsimp only
  exact wellFormedIndex_insert _ B
    { fromId := B, toId := A, linkType := getReverseType t,
      strength := s, createdAt := now, metadata := m } rfl
    (wellFormedIndex_insert index A
      { fromId := A, toId := B, linkType := t, strength := s,
        createdAt := now, metadata := m } rfl h)

theorem wellFormedIndex_removeLink (index : ChainIndex) (A B : String)
    (h : wellFormedIndex index) :
    wellFormedIndex (removeLink index A B) := by
  unfold removeLink
  dsimp only
  split
  · have hprops : (((mapGet index A).getD []).map fun l => l.toId).Nodup ∧
        ∀ l ∈ (mapGet index A).getD [], l.fromId = A := by
      cases hg : mapGet index A with
      | none => simp
      | some w => simpa using h.2 (A, w) (mapGet_some_mem hg)
    refine wellFormedIndex_mapSet index A _ h ?_ ?_
    · exact hprops.1.sublist ((List.filter_sublist _).map _)
    · intro l hl
      exact hprops.2 l (List.mem_of_mem_filter hl)
  · exact h

theorem wellFormedIndex_applyChainOps (ops : List ChainOp) :
    wellFormedIndex (applyChainOps ops) := by
  unfold applyChainOps
  refine List.foldlRecOn
    (motive := fun (idx : ChainIndex) => wellFormedIndex idx)
    ops _ [] wellFormedIndex_nil ?_
  intro idx hidx op _
  cases op with
  | add f t ty s now m =>
    exact wellFormedIndex_addLink idx f t ty s now m hidx
  | remove f t =>
    exact wellFormedIndex_removeLink idx f t hidx

theorem filter_pair_length_le_one (A B : String)
    (links : List MemoryChainLink)
    (hnd : (links.map fun l => l.toId).Nodup) :
    (links.filter fun l => l.fromId == A && l.toId == B).length ≤ 1 := by
  induction links with
  | nil => simp
  | cons l rest ih =>
    rw [List.map_cons] at hnd
    have h1 := (List.nodup_cons.mp hnd).1
    have h2 := (List.nodup_cons.mp hnd).2
    by_cases hp : (l.fromId == A && l.toId == B) = true
    · rw [List.filter_cons_of_pos (p := fun x : MemoryChainLink =>
        x.fromId == A && x.toId == B) hp]
      have hB : l.toId = B := by
        rw [Bool.and_eq_true] at hp
        simpa using hp.2
      have hrest : rest.filter
          (fun l => l.fromId == A && l.toId == B) = [] := by
        refine List.filter_eq_nil_iff.mpr ?_
        intro x hx hpx
        rw [Bool.and_eq_true] at hpx
        have hxB : x.toId = B := by simpa using hpx.2
        exact h1 (List.mem_map.mpr ⟨x, hx, by rw [hxB, hB]⟩)
      rw [hrest]
      simp
    · rw [List.filter_cons_of_neg (p := fun x : MemoryChainLink =>
        x.fromId == A && x.toId == B) (by simpa using hp)]
      exact ih h2

theorem edgeCount_cons (kv : String × List MemoryChainLink)
    (rest : ChainIndex) (A B : String) :
    edgeCount (kv :: rest) A B =
      (kv.2.filter fun l => l.fromId == A && l.toId == B).length +
        edgeCount rest A B := by
  simp [edgeCount, List.filter_append]

theorem edgeCount_eq_zero_of_not_key (index : ChainIndex) (A B : String)
    (hfrom : ∀ kv ∈ index, ∀ l ∈ kv.2, l.fromId = kv.1)
    (hA : A ∉ index.map fun kv => kv.1) : edgeCount index A B = 0 := by
  induction index with
  | nil => simp [edgeCount]
  | cons kv rest ih =>
    rw [edgeCount_cons]
    rw [List.map_cons] at hA
    have hkv : (kv.2.filter fun l => l.fromId == A && l.toId == B)
        = [] := by
      refine List.filter_eq_nil_iff.mpr ?_
      intro l hl hp
      rw [Bool.and_eq_true] at hp
      have hlf : l.fromId = A := by simpa using hp.1
      have hkey : l.fromId = kv.1 :=
        hfrom kv (List.mem_cons_self _ _) l hl
      have hAk : A = kv.1 := by rw [← hlf, hkey]
      exact hA (by rw [hAk]; exact List.mem_cons_self _ _)
    rw [hkv]
    simp only [List.length_nil, Nat.zero_add]
    exact ih (fun x hx => hfrom x (List.mem_cons_of_mem kv hx))
      (fun hmem => hA (List.mem_cons_of_mem _ hmem))

theorem edgeCount_le_one (index : ChainIndex)
    (h : wellFormedIndex index) (A B : String) :
    edgeCount index A B ≤ 1 := by
  induction index with
  | nil => simp [edgeCount]
  | cons kv rest ih =>
    rw [edgeCount_cons]
    have htl := wellFormedIndex_tail h
    have h1 := h.1
    rw [List.map_cons] at h1
    have hnk := (List.nodup_cons.mp h1).1
    by_cases hA : kv.1 = A
    · have h0 : edgeCount rest A B = 0 :=
        edgeCount_eq_zero_of_not_key rest A B
          (fun x hx => (htl.2 x hx).2) (hA ▸ hnk)
      rw [h0]
      have hle := filter_pair_length_le_one A B kv.2
        (h.2 kv (List.mem_cons_self _ _)).1
      omega
    · have hkv0 : (kv.2.filter fun l => l.fromId == A && l.toId == B)
          = [] := by
        refine List.filter_eq_nil_iff.mpr ?_
        intro l hl hp
        rw [Bool.and_eq_true] at hp
        have hlf : l.fromId = A := by simpa using hp.1
        exact hA (((h.2 kv (List.mem_cons_self _ _)).2 l hl).symm.trans
          hlf)
      rw [hkv0]
      simpa using ih htl

theorem addLink_existing_noop (index : ChainIndex) (A B : String)
    (t : ChainLinkType) (s now : ℝ) (m : Option (List (String × String)))
    (h : (((mapGet index A).getD []).find? fun l =>
      l.toId == B).isSome = true) :
    getLinks (addLink index A B t s now m) A = getLinks index A := by
  unfold addLink getLinks
  dsimp only
  rw [if_pos h]
  by_cases hBA : B = A
  · subst hBA
    rw [if_pos h]
  · split
    · rfl
    · rw [mapGet_mapSet_ne _ _ _ _ (fun hh => hBA hh.symm)]

/-- C8.  Replaying any sequence of addLink and removeLink operations from
the empty index leaves at most one edge per ordered (from, to) pair, and a
second addLink on a pair that already has an edge leaves the adjacency
list of the source node unchanged (first write wins), whatever type and
strength are passed. -/
theorem C8_pair_unique_first_write_wins (ops : List ChainOp)
    (A B : String) (t : ChainLinkType) (s now : ℝ)
    (m : Option (List (String × String))) :
    edgeCount (applyChainOps ops) A B ≤ 1 ∧
    (((getLinks (applyChainOps ops) A).find? fun l =>
        l.toId == B).isSome = true →
      getLinks (addLink (applyChainOps ops) A B t s now m) A =
        getLinks (applyChainOps ops) A) :=
  ⟨edgeCount_le_one _ (wellFormedIndex_applyChainOps ops) A B,
   fun h => addLink_existing_noop _ A B t s now m h⟩

/-- Witness for C8: after one addLink from a to b, a second addLink with a
different type and strength leaves the stored edge unchanged. -/
theorem C8_witness :
    edgeCount (applyChainOps [ChainOp.add "a" "b" ChainLinkType.related
      (1 / 2) 0 none]) "a" "b" ≤ 1 ∧
    getLinks (addLink (applyChainOps [ChainOp.add "a" "b"
        ChainLinkType.related (1 / 2) 0 none]) "a" "b"
        ChainLinkType.parent (9 / 10) 0 none) "a" =
      getLinks (applyChainOps [ChainOp.add "a" "b" ChainLinkType.related
        (1 / 2) 0 none]) "a" :=
  ⟨(C8_pair_unique_first_write_wins [ChainOp.add "a" "b"
      ChainLinkType.related (1 / 2) 0 none] "a" "b" ChainLinkType.parent
      (9 / 10) 0 none).1,
   (C8_pair_unique_first_write_wins [ChainOp.add "a" "b"
      ChainLinkType.related (1 / 2) 0 none] "a" "b" ChainLinkType.parent
      (9 / 10) 0 none).2
     (by simp [applyChainOps, addLink, getLinks, mapGet, mapSet,
       getReverseType])⟩

end Synthium
